import Mathlib

/-!
# Verification of the ORS proxy (rust-ors-proxy)

A shallow embedding, in Lean 4, of the core of the `rust-ors-proxy`
repository: the SSE frame codec (`src/sse_codec.rs`), the streaming
protocol transcoder (`src/transcoder.rs`), the request translator
(`src/upstream.rs`), the upstream-failure handling and per-line stream
loop of the request handler (`src/main.rs`), and the output
reconstruction of the conversation store (`src/db.rs`).

Conventions of the embedding:
* Rust `u32`/byte values become `Nat` (no arithmetic here ever nears
  overflow: sequence counters and buffer indices only increment).
* Byte buffers (`BytesMut`, `Bytes`) become `List Nat`, each entry a
  byte value; UTF-8 validation is embedded explicitly, mirroring
  `std::str::from_utf8`.
* `Uuid::new_v4` (an external randomness source) is modelled by a
  deterministic token supply carried in the transcoder state: the
  `n`-th fresh token is `toString n`.  No claim depends on the token
  values themselves.
* `serde_json` (de)serialization at the process boundary is modelled
  by a parse function passed as a parameter to the line loop; the
  JSON objects the transcoder builds with `json!` are modelled by
  structures whose fields mirror the keys the source writes.
-/

namespace OrsProxy

/-! ## Data model (`src/types.rs`) -/

/-- `OrsRole` from `types.rs`. -/
inductive OrsRole
  | user
  | assistant
  | developer
  deriving DecidableEq, Repr

/-- `OrsContentPart` from `types.rs`.  The `image_url` payload is an
opaque `serde_json::Value` in the source; it is modelled by an opaque
string (the claims never inspect it). -/
inductive OrsContentPart
  | inputText (text : String)
  | inputImage (image_url : String)
  deriving DecidableEq, Repr

/-- `OrsInputItem` from `types.rs`.  `FunctionCall.arguments` is a
`serde_json::Value` in the source and is only ever passed through
`to_string()`; it is modelled by its serialized string. -/
inductive OrsInputItem
  | message (role : OrsRole) (content : List OrsContentPart)
  | functionCall (id call_id name arguments : String)
  | functionCallOutput (id call_id output : String)
  deriving DecidableEq, Repr

/-- One entry of `LegacyDelta.tool_calls`.  In the source each entry is
a raw `serde_json::Value` read through `get("id")`,
`get("function").get("name")` and `get("function").get("arguments")`
(`transcoder.rs` lines 120–123); the model keeps exactly those three
access results. -/
structure ToolCallDelta where
  id : Option String
  name : Option String
  arguments : Option String
  deriving DecidableEq, Repr

/-- `LegacyDelta` from `types.rs` (the flattened `extra` field is never
read by the core and is omitted). -/
structure LegacyDelta where
  content : Option String
  tool_calls : Option (List ToolCallDelta)
  deriving DecidableEq, Repr

/-- `LegacyChoice` from `types.rs`. -/
structure LegacyChoice where
  delta : LegacyDelta
  finish_reason : Option String
  deriving DecidableEq, Repr

/-- `LegacyChunk` from `types.rs`. -/
structure LegacyChunk where
  choices : List LegacyChoice
  deriving DecidableEq, Repr

/-- The `part` objects built by the transcoder:
`json!({"type": "output_text", "text": ""})`. -/
structure PartObj where
  type_ : String
  text : String
  deriving DecidableEq, Repr

/-- The `item` objects built by the transcoder with `json!`.  A single
structure with optional fields mirrors the three key sets the source
writes: the message item (`transcoder.rs` lines 62–68), the
function-call item (lines 135–142) and the done item (lines 211–215). -/
structure OutItem where
  id : String
  type_ : String
  status : String
  role : Option String
  content : Option (List PartObj)
  call_id : Option String
  name : Option String
  arguments : Option String
  deriving DecidableEq, Repr

/-- The message item object of `transcoder.rs` lines 62–68. -/
def msgItem (id : String) : OutItem :=
  { id := id, type_ := "message", status := "in_progress",
    role := some "assistant", content := some [],
    call_id := none, name := none, arguments := none }

/-- The function-call item object of `transcoder.rs` lines 135–142. -/
def fcItem (id call_id name : String) : OutItem :=
  { id := id, type_ := "function_call", status := "in_progress",
    role := none, content := none,
    call_id := some call_id, name := some name, arguments := some "" }

/-- The done item object of `transcoder.rs` lines 211–215. -/
def doneItem (id type_ status : String) : OutItem :=
  { id := id, type_ := type_, status := status,
    role := none, content := none,
    call_id := none, name := none, arguments := none }

/-- `OrsEvent` from `types.rs`, with the same variants and fields. -/
inductive OrsEvent
  | created (id : String) (sequence_number : Option Nat)
  | itemAdded (sequence_number : Option Nat) (item : OutItem)
  | contentPartAdded (sequence_number : Option Nat) (item_id : String)
      (output_index content_index : Option Nat) (part : PartObj)
  | textDelta (sequence_number : Option Nat) (item_id : String)
      (output_index content_index : Option Nat) (delta : String)
  | functionCallArgumentsDelta (sequence_number : Option Nat)
      (item_id : String) (output_index : Option Nat) (delta : String)
  | contentPartDone (sequence_number : Option Nat) (item_id : String)
      (output_index content_index : Option Nat) (part : PartObj)
  | itemDone (sequence_number : Option Nat) (output_index : Option Nat)
      (item : OutItem)
  deriving DecidableEq, Repr

/-! ## Transcoder (`src/transcoder.rs`) -/

/-- `TranscoderState` from `transcoder.rs`. -/
inductive TranscoderState
  | init
  | streaming
  deriving DecidableEq, Repr

/-- The `Transcoder` struct.  The extra `supply` field models the
`Uuid::new_v4` source: the `n`-th token drawn is `toString n`. -/
structure Transcoder where
  response_id : String
  current_item_id : Option String
  current_item_type : Option String
  current_content_index : Option Nat
  has_emitted_content_start : Bool
  state : TranscoderState
  sequence_number : Nat
  supply : Nat
  deriving DecidableEq, Repr

/-- `Transcoder::new`, with the response uuid token passed in
(`format!("resp_{}", Uuid::new_v4().simple())`). -/
def Transcoder.new (tok : String) : Transcoder :=
  { response_id := "resp_" ++ tok,
    current_item_id := none,
    current_item_type := none,
    current_content_index := none,
    has_emitted_content_start := false,
    state := .init,
    sequence_number := 0,
    supply := 0 }

/-- `Transcoder::next_seq`: returns `Some(seq)` and increments. -/
def Transcoder.next_seq (t : Transcoder) : Option Nat × Transcoder :=
  (some t.sequence_number, { t with sequence_number := t.sequence_number + 1 })

/-- Draw a fresh uuid token from the supply. -/
def Transcoder.freshTok (t : Transcoder) : String × Transcoder :=
  (toString t.supply, { t with supply := t.supply + 1 })

/-- The initialization block of `Transcoder::process`
(`transcoder.rs` lines 44–73): on the first chunk emit
`response.created` and, unless the delta carries tool calls and no
content, open a message item — reusing the sequence number of
`response.created` for the `output_item.added` event, exactly as the
source does (both events carry `seq`). -/
def initPhase (t : Transcoder) (choice : LegacyChoice) :
    Transcoder × List OrsEvent :=
  match t.state with
  | .streaming => (t, [])
  | .init =>
    let (seq, t) := t.next_seq
    let ev0 : OrsEvent := .created t.response_id seq
    let has_tool_calls :=
      (choice.delta.tool_calls.map (fun tc => !tc.isEmpty)).getD false
    let has_content :=
      (choice.delta.content.map (fun s => !s.isEmpty)).getD false
    if !has_tool_calls || has_content then
      let (tok, t) := t.freshTok
      let item_id := "msg_" ++ tok
      let t := { t with current_item_id := some item_id,
                        current_item_type := some "message",
                        state := .streaming }
      (t, [ev0, .itemAdded seq (msgItem item_id)])
    else
      ({ t with state := .streaming }, [ev0])

/-- The content-delta block of `Transcoder::process`
(`transcoder.rs` lines 77–110).  `item_id` is the local captured at
line 75 (`current_item_id` unwrapped to `""`). -/
def contentPhase (t : Transcoder) (item_id : String)
    (choice : LegacyChoice) : Transcoder × List OrsEvent :=
  match choice.delta.content with
  | none => (t, [])
  | some content =>
    if content.isEmpty then (t, [])
    else if item_id.isEmpty then (t, [])
    else
      let (t, evs) :=
        if t.has_emitted_content_start then (t, ([] : List OrsEvent))
        else
          let (seq, t) := t.next_seq
          let content_idx := t.current_content_index.getD 0
          let t := { t with current_content_index := some content_idx,
                            has_emitted_content_start := true }
          (t, [.contentPartAdded seq item_id (some 0) (some content_idx)
                 ⟨"output_text", ""⟩])
      let (seq, t) := t.next_seq
      (t, evs ++ [.textDelta seq item_id (some 0) t.current_content_index
                    content])

/-- One iteration of the tool-call loop of `Transcoder::process`
(`transcoder.rs` lines 113–163). -/
def toolStep (t : Transcoder) (tc : ToolCallDelta) :
    Transcoder × List OrsEvent :=
  let (t, evs1) :=
    match tc.id with
    | some call_id =>
      let (tok, t) := t.freshTok
      let new_item_id := "fc_" ++ tok
      let t := { t with current_item_id := some new_item_id }
      let call_name := tc.name.getD "unknown"
      let (seq, t) := t.next_seq
      let t := { t with current_item_type := some "function_call" }
      (t, [OrsEvent.itemAdded seq (fcItem new_item_id call_id call_name)])
    | none => (t, [])
  match tc.arguments with
  | some delta =>
    if delta.isEmpty then (t, evs1)
    else
      match t.current_item_id with
      | some current_id =>
        let (seq, t) := t.next_seq
        (t, evs1 ++ [.functionCallArgumentsDelta seq current_id (some 0)
                       delta])
      | none => (t, evs1)
  | none => (t, evs1)

/-- The tool-call loop (`for tool_call in tool_calls`). -/
def toolLoop : Transcoder → List ToolCallDelta → Transcoder × List OrsEvent
  | t, [] => (t, [])
  | t, tc :: rest =>
    let (t1, e1) := toolStep t tc
    let (t2, e2) := toolLoop t1 rest
    (t2, e1 ++ e2)

/-- The tool-calls block of `Transcoder::process`
(`transcoder.rs` lines 112–164). -/
def toolPhase (t : Transcoder) (choice : LegacyChoice) :
    Transcoder × List OrsEvent :=
  match choice.delta.tool_calls with
  | none => (t, [])
  | some tcs => toolLoop t tcs

/-- The completion block of `Transcoder::process`
(`transcoder.rs` lines 166–220).  `item_id` is the stale local of
line 75, used by the source for both `content_part.done` and
`output_item.done`. -/
def finishPhase (t : Transcoder) (item_id : String)
    (choice : LegacyChoice) : Transcoder × List OrsEvent :=
  match choice.finish_reason with
  | none => (t, [])
  | some finish_reason =>
    let status :=
      if finish_reason = "stop" then "completed"
      else if finish_reason = "length" then "incomplete"
      else if finish_reason = "content_filter" then "incomplete"
      else "completed"
    let (t, evs1) :=
      if t.has_emitted_content_start then
        let (seq, t) := t.next_seq
        let content_idx := t.current_content_index.getD 0
        let t := { t with has_emitted_content_start := false,
                          current_content_index := none }
        (t, [OrsEvent.contentPartDone seq item_id (some 0)
               (some content_idx) ⟨"output_text", ""⟩])
      else (t, [])
    let (seq, t) := t.next_seq
    let item_type := t.current_item_type.getD "message"
    let t := { t with current_item_id := none, current_item_type := none }
    (t, evs1 ++ [.itemDone seq (some 0) (doneItem item_id item_type status)])

/-- `Transcoder::process` (`transcoder.rs` lines 38–224): only the
first choice is considered; an empty `choices` list yields no events
and leaves the state untouched.  The local `item_id` captured at
line 75 (after initialization) is shared by the content and completion
blocks, while the tool loop reads and writes `current_item_id`. -/
def Transcoder.process (t : Transcoder) (chunk : LegacyChunk) :
    Transcoder × List OrsEvent :=
  match chunk.choices.head? with
  | none => (t, [])
  | some choice =>
    let (t1, e1) := initPhase t choice
    let item_id := t1.current_item_id.getD ""
    let (t2, e2) := contentPhase t1 item_id choice
    let (t3, e3) := toolPhase t2 choice
    let (t4, e4) := finishPhase t3 item_id choice
    (t4, e1 ++ e2 ++ e3 ++ e4)

/-- Repeated `process` calls on one transcoder instance, events
concatenated in emission order. -/
def processAll : Transcoder → List LegacyChunk → Transcoder × List OrsEvent
  | t, [] => (t, [])
  | t, c :: rest =>
    let (t1, e1) := t.process c
    let (t2, e2) := processAll t1 rest
    (t2, e1 ++ e2)

/-! ## SSE frame codec (`src/sse_codec.rs`) -/

/-- Whether a byte is a UTF-8 continuation byte (`0x80..=0xBF`). -/
def isCont (b : Nat) : Bool := 0x80 ≤ b && b ≤ 0xBF

/-- UTF-8 validation of a byte sequence, mirroring
`std::str::from_utf8`: ASCII, the two- to four-byte forms with their
restricted second bytes (no overlongs, no surrogates, max `U+10FFFF`). -/
def isValidUtf8 : List Nat → Bool
  | [] => true
  | b :: rest =>
    if b < 0x80 then isValidUtf8 rest
    else if 0xC2 ≤ b && b ≤ 0xDF then
      match rest with
      | c1 :: r => isCont c1 && isValidUtf8 r
      | [] => false
    else if b = 0xE0 then
      match rest with
      | c1 :: c2 :: r => (0xA0 ≤ c1 && c1 ≤ 0xBF) && isCont c2 && isValidUtf8 r
      | _ => false
    else if (0xE1 ≤ b && b ≤ 0xEC) || b = 0xEE || b = 0xEF then
      match rest with
      | c1 :: c2 :: r => isCont c1 && isCont c2 && isValidUtf8 r
      | _ => false
    else if b = 0xED then
      match rest with
      | c1 :: c2 :: r => (0x80 ≤ c1 && c1 ≤ 0x9F) && isCont c2 && isValidUtf8 r
      | _ => false
    else if b = 0xF0 then
      match rest with
      | c1 :: c2 :: c3 :: r =>
        (0x90 ≤ c1 && c1 ≤ 0xBF) && isCont c2 && isCont c3 && isValidUtf8 r
      | _ => false
    else if 0xF1 ≤ b && b ≤ 0xF3 then
      match rest with
      | c1 :: c2 :: c3 :: r => isCont c1 && isCont c2 && isCont c3 && isValidUtf8 r
      | _ => false
    else if b = 0xF4 then
      match rest with
      | c1 :: c2 :: c3 :: r =>
        (0x80 ≤ c1 && c1 ≤ 0x8F) && isCont c2 && isCont c3 && isValidUtf8 r
      | _ => false
    else false

/-- Strip a single trailing carriage return (`sse_codec.rs` lines
23–27: `line_bytes.ends_with(b"\r")`). -/
def stripCr (l : List Nat) : List Nat :=
  if l.getLast? = some 13 then l.dropLast else l

/-- The body of the per-line filter (`sse_codec.rs` lines 23–33):
strip a trailing CR, keep the line only if it is valid UTF-8 and
non-empty. -/
def keepLine (line_bytes : List Nat) : List (List Nat) :=
  let s := stripCr line_bytes
  if isValidUtf8 s && !s.isEmpty then [s] else []

/-- The `while let Some(i) = … position(b'\n')` loop of
`SseCodec::decode` (`sse_codec.rs` lines 18–34), expressed as a single
left-to-right scan: `cur` accumulates the bytes of the current line
(the span before the next `0x0A`); at each line feed the completed
span goes through `keepLine` (CR strip, UTF-8 check, emptiness check)
and is appended to `acc`; the line feed itself is discarded; the final
`cur` is the retained tail. -/
def extractLinesGo (acc : List (List Nat)) (cur : List Nat) :
    List Nat → List (List Nat) × List Nat
  | [] => (acc, cur)
  | b :: bs =>
    if b = 10 then extractLinesGo (acc ++ keepLine cur) [] bs
    else extractLinesGo acc (cur ++ [b]) bs

/-- Extract every complete line from the buffer, returning the kept
lines and the retained tail. -/
def extractLines (buf : List Nat) : List (List Nat) × List Nat :=
  extractLinesGo [] [] buf

/-- The `SseCodec` struct: the retained byte buffer. -/
structure SseCodec where
  buffer : List Nat
  deriving DecidableEq, Repr

/-- `SseCodec::new`. -/
def SseCodec.new : SseCodec := ⟨[]⟩

/-- `SseCodec::decode` (`sse_codec.rs` lines 14–37): append the chunk
to the buffer, extract all complete lines, retain the tail. -/
def SseCodec.decode (c : SseCodec) (chunk : List Nat) :
    SseCodec × List (List Nat) :=
  let (ls, t) := extractLines (c.buffer ++ chunk)
  (⟨t⟩, ls)

/-- Sequential `decode` calls over a list of chunks, line lists
concatenated in order. -/
def decodeChunks : SseCodec → List (List Nat) → SseCodec × List (List Nat)
  | c, [] => (c, [])
  | c, ch :: rest =>
    let (c1, ls) := c.decode ch
    let (c2, ls') := decodeChunks c1 rest
    (c2, ls ++ ls')

/-! ## Request handler stream loop (`src/main.rs`) -/

/-- The ASCII fragment of Rust's `char::is_whitespace` (the full
Unicode White_Space set never occurs in the payloads considered). -/
def isRustWhitespace (c : Char) : Bool :=
  c = ' ' || c = '\t' || c = '\r' || c = '\n'

/-- Rust `str::trim`: strip leading and trailing whitespace. -/
def rustTrim (s : String) : String :=
  ⟨((s.data.dropWhile isRustWhitespace).reverse.dropWhile
      isRustWhitespace).reverse⟩

/-- Rust `str::starts_with` for a string prefix. -/
def rustStartsWith (s pre : String) : Bool :=
  pre.data.isPrefixOf s.data

/-- The slice `&line["data: ".len()..]` (the prefix is ASCII, so byte
count and character count agree). -/
def rustDrop (s : String) (n : Nat) : String :=
  ⟨s.data.drop n⟩

/-- Processing of one decoded line inside `make_stream`
(`main.rs` lines 177–202): trim, require the `data: ` prefix, drop a
`[DONE]` payload (`continue`), otherwise parse the payload
(`serde_json::from_str`, modelled by the `parse` parameter; `none`
models a parse failure, which is logged and skipped) and feed the
chunk to the transcoder. -/
def processLine (parse : String → Option LegacyChunk) (t : Transcoder)
    (line : String) : Transcoder × List OrsEvent :=
  let line := rustTrim line
  if rustStartsWith line "data: " then
    let json_str := rustDrop line 6
    if json_str = "[DONE]" then (t, [])
    else
      match parse json_str with
      | some legacy_chunk => t.process legacy_chunk
      | none => (t, [])
  else (t, [])

/-- The `for line in lines` loop of `make_stream`: every line is
processed in order against the shared transcoder; emitted events are
accumulated (they are both yielded to the client and buffered for
persistence). -/
def processLines (parse : String → Option LegacyChunk) :
    Transcoder → List String → Transcoder × List OrsEvent
  | t, [] => (t, [])
  | t, line :: rest =>
    let (t1, e1) := processLine parse t line
    let (t2, e2) := processLines parse t1 rest
    (t2, e1 ++ e2)

/-! ## Request translator (`src/upstream.rs`) -/

/-- One entry of the legacy `content` array built by the translator:
`{"type": "text", "text": …}` or `{"type": "image_url", "image_url": …}`. -/
inductive LegacyContentPart
  | text (text : String)
  | imageUrl (image_url : String)
  deriving DecidableEq, Repr

/-- The legacy `content` field value: a plain JSON string or an array
of typed parts (`types.rs` line 71: `Option<Value>`). -/
inductive LegacyContent
  | str (s : String)
  | parts (ps : List LegacyContentPart)
  deriving DecidableEq, Repr

/-- A legacy tool-call object as built at `upstream.rs` lines 74–85:
`{"id": call_id, "type": "function", "function": {name, arguments}}`,
flattened. -/
structure LegacyToolCall where
  id : String
  type_ : String
  name : String
  arguments : String
  deriving DecidableEq, Repr

/-- `LegacyMessage` from `types.rs`. -/
structure LegacyMessage where
  role : String
  content : Option LegacyContent
  tool_calls : Option (List LegacyToolCall)
  tool_call_id : Option String
  deriving DecidableEq, Repr

/-- The role mapping of `upstream.rs` lines 9–13. -/
def legacyRoleOf : OrsRole → String
  | .user => "user"
  | .assistant => "assistant"
  | .developer => "system"

/-- The content-parts accumulation loop of `upstream.rs` lines 15–42:
empty text parts are dropped, image parts set the `has_image` flag.
Returns the built parts (in order) and the flag. -/
def buildParts : List OrsContentPart → List LegacyContentPart × Bool
  | [] => ([], false)
  | .inputText t :: rest =>
    let (ps, hi) := buildParts rest
    ((if !t.isEmpty then [LegacyContentPart.text t] else []) ++ ps, hi)
  | .inputImage u :: rest =>
    let (ps, _hi) := buildParts rest
    (.imageUrl u :: ps, true)

/-- The `filter_map(|p| p.get("text")…)` of `upstream.rs` lines 50–53:
the text of each text part (image parts have no `text` key). -/
def textsOf (ps : List LegacyContentPart) : List String :=
  ps.filterMap fun p =>
    match p with
    | .text t => some t
    | .imageUrl _ => none

/-- Translation of a single ORS input item (`upstream.rs` lines
6–99); each arm pushes exactly one legacy message. -/
def transformItem : OrsInputItem → LegacyMessage
  | .message role content =>
    let role_str := legacyRoleOf role
    let (content_parts, has_image) := buildParts content
    let legacy_content :=
      if has_image then some (LegacyContent.parts content_parts)
      else
        let full_text := String.join (textsOf content_parts)
        if !full_text.isEmpty then some (LegacyContent.str full_text)
        else none
    { role := role_str, content := legacy_content,
      tool_calls := none, tool_call_id := none }
  | .functionCall _ call_id name arguments =>
    { role := "assistant", content := none,
      tool_calls := some [⟨call_id, "function", name, arguments⟩],
      tool_call_id := none }
  | .functionCallOutput _ call_id output =>
    { role := "tool", content := some (.str output),
      tool_calls := none, tool_call_id := some call_id }

/-- `transform_ors_to_legacy` (`upstream.rs` lines 3–101): one legacy
message per input item, order preserved. -/
def transform_ors_to_legacy (input : List OrsInputItem) : List LegacyMessage :=
  input.map transformItem

/-! ## Conversation store reconstruction (`src/db.rs`)

The reconstruction loop of `Db::save_interaction` (`db.rs` lines
114–170) does not compile as written: it destructures
`OrsEvent::ItemAdded { item_id, item }`, but that variant has no
`item_id` field (`types.rs` lines 113–117 give it `sequence_number`
and `item`), and the `TextDelta` pattern omits its remaining fields
without `..`.  The model below follows the evident intent recorded in
the surrounding comments and the spec: the id of an added item is the
`"id"` of its item payload, and a text delta is matched by its
`item_id` field. -/

/-- The per-item accumulator `ItemState` of `db.rs` lines 127–130. -/
structure ItemState where
  item_type : String
  content : String
  deriving DecidableEq, Repr

/-- `HashMap::insert` on the association-list model of `items_map`
(overwrites an existing binding). -/
def mapInsert (m : List (String × ItemState)) (k : String) (v : ItemState) :
    List (String × ItemState) :=
  if m.any (fun p => p.1 = k) then
    m.map (fun p => if p.1 = k then (k, v) else p)
  else m ++ [(k, v)]

/-- `HashMap::get` / `get_mut` lookup. -/
def mapLookup (m : List (String × ItemState)) (k : String) :
    Option ItemState :=
  (m.find? (fun p => p.1 = k)).map Prod.snd

/-- One step of the event-aggregation loop of `db.rs` lines 134–148:
`ItemAdded` registers the id with its payload's `type` and empty text
and appends the id to `item_order`; `TextDelta` appends the delta to
the matching entry (absent entries are ignored); every other event
kind is ignored. -/
def aggregateEvent (acc : List (String × ItemState) × List String)
    (e : OrsEvent) : List (String × ItemState) × List String :=
  match e with
  | .itemAdded _ item =>
    (mapInsert acc.1 item.id ⟨item.type_, ""⟩, acc.2 ++ [item.id])
  | .textDelta _ item_id _ _ delta =>
    (match mapLookup acc.1 item_id with
     | some st => acc.1.map (fun p =>
         if p.1 = item_id then (p.1, ⟨st.item_type, st.content ++ delta⟩)
         else p)
     | none => acc.1, acc.2)
  | _ => (acc.1, acc.2)

/-- A row of the `items` table as written by `save_interaction`:
`(sequence_index, item_type label, payload)`. -/
structure StoredRow where
  sequence_index : Nat
  item_type : String
  payload : OrsInputItem
  deriving DecidableEq, Repr

/-- The synthesized output items of `db.rs` lines 150–170, in
first-seen order: for each id in `item_order` with a surviving map
entry, an assistant `Message` with one input-text part holding the
accumulated text, labelled with the entry's item type. -/
def reconstructOutputs (events : List OrsEvent) :
    List (String × OrsInputItem) :=
  let (items_map, item_order) := events.foldl aggregateEvent ([], [])
  item_order.filterMap fun item_id =>
    (mapLookup items_map item_id).map fun st =>
      (st.item_type,
       OrsInputItem.message .assistant [.inputText st.content])

/-- The full row sequence written by `save_interaction` (`db.rs`
lines 99–170): the input items with label `"input"` at consecutive
indices from `start` (the prior row count), then the synthesized
output items at the following consecutive indices. -/
def save_interaction_rows (start : Nat) (input : List OrsInputItem)
    (events : List OrsEvent) : List StoredRow :=
  let inputRows := input.enum.map fun p =>
    StoredRow.mk (start + p.1) "input" p.2
  let outs := reconstructOutputs events
  let outRows := outs.enum.map fun p =>
    StoredRow.mk (start + input.length + p.1) p.2.1 p.2.2
  inputRows ++ outRows

/-! ## Upstream failure handling (`src/main.rs`, `create_response`) -/

/-- The outcome of `req_builder.send().await` followed by the status
check: a transport error (`Err(e)` at `main.rs` line 123) or a
response with a status code and body text. -/
inductive UpstreamResult
  | sendErr (e : String)
  | resp (status : Nat) (body : String)
  deriving DecidableEq, Repr

/-- A response body surfaced to the client before streaming: the
plain-text body of `main.rs` line 127, or the JSON error object of
lines 136–142 (`{error: {message, type, code}}`). -/
inductive ClientBody
  | text (s : String)
  | jsonError (message type_ code : String)
  deriving DecidableEq, Repr

/-- What `create_response` does with the upstream result (`main.rs`
lines 121–157): an early HTTP response (status, whether the
`Content-Type: application/json` header is set, body) — in which case
`make_stream` is never reached and nothing is persisted — or the SSE
streaming path. -/
inductive HandlerOutcome
  | early (status : Nat) (jsonHeader : Bool) (body : ClientBody)
  | stream
  deriving DecidableEq, Repr

/-- `reqwest::StatusCode::is_success`: `200..=299`. -/
def isSuccessStatus (s : Nat) : Bool := 200 ≤ s && s ≤ 299

/-- The upstream-result handling of `create_response` (`main.rs`
lines 121–157).  A transport error yields a plain-text 502; a non-2xx
status yields a 502 with the JSON error body
`{error: {message: "Upstream provider error: " ++ text,
type: "upstream_error", code: "upstream_failed"}}`; a success status
proceeds to streaming.  Persistence (`save_interaction`) happens only
on the streaming path (`main.rs` line 206). -/
def handleUpstreamResult : UpstreamResult → HandlerOutcome
  | .sendErr e => .early 502 false (.text ("Upstream error: " ++ e))
  | .resp status body =>
    if !isSuccessStatus status then
      .early 502 true
        (.jsonError ("Upstream provider error: " ++ body)
          "upstream_error" "upstream_failed")
    else .stream

/-- The response shape the spec claims for every upstream failure:
status 502 with a JSON body
`{error: {message, type: "upstream_error", code: "upstream_failed"}}`
whose message contains the upstream text, nothing persisted (the
streaming/persistence path not taken). -/
def upstreamErrorBodyShape (upstreamText : String)
    (o : HandlerOutcome) : Prop :=
  match o with
  | .early s _ b =>
    s = 502 ∧
    ∃ m, b = .jsonError m "upstream_error" "upstream_failed" ∧
      ∃ p q, m = p ++ upstreamText ++ q
  | .stream => False

/-! ## Claim-level predicates -/

/-- The sequence number carried by an event. -/
def seqOf : OrsEvent → Option Nat
  | .created _ s => s
  | .itemAdded s _ => s
  | .contentPartAdded s _ _ _ _ => s
  | .textDelta s _ _ _ _ => s
  | .functionCallArgumentsDelta s _ _ _ => s
  | .contentPartDone s _ _ _ _ => s
  | .itemDone s _ _ => s

/-- The sequence numbers of an event list, in emission order. -/
def seqNumbers (evs : List OrsEvent) : List (Option Nat) :=
  evs.map seqOf

/-- Whether the emitted sequence numbers form exactly `0, 1, 2, …`
with no gap (each strictly greater than its predecessor, starting at
zero). -/
def seqStrictFrom0 (evs : List OrsEvent) : Bool :=
  seqNumbers evs = (List.range evs.length).map some

/-- The item ids referenced by an event, for the five item-referencing
kinds (`content_part.added`, `output_text.delta`,
`function_call_arguments.delta`, `content_part.done`,
`output_item.done`); `response.created` and `output_item.added`
reference none (the latter introduces its id). -/
def eventRefIds : OrsEvent → List String
  | .contentPartAdded _ iid _ _ _ => [iid]
  | .textDelta _ iid _ _ _ => [iid]
  | .functionCallArgumentsDelta _ iid _ _ => [iid]
  | .contentPartDone _ iid _ _ _ => [iid]
  | .itemDone _ _ item => [item.id]
  | _ => []

/-- The item id introduced by an event (`output_item.added` only). -/
def eventAddedIds : OrsEvent → List String
  | .itemAdded _ item => [item.id]
  | _ => []

/-- All ids introduced by `output_item.added` events of a list. -/
def addedIdsOf (evs : List OrsEvent) : List String :=
  (evs.map eventAddedIds).flatten

/-- Checks, walking the event list in order with `seen` holding the
ids already introduced, that every referenced id was introduced by an
earlier `output_item.added` (ids satisfying `exempt` are excused). -/
def refsCheckFrom (exempt : String → Bool) :
    List String → List OrsEvent → Bool
  | _, [] => true
  | seen, e :: rest =>
    (eventRefIds e).all (fun i => exempt i || decide (i ∈ seen)) &&
      refsCheckFrom exempt (seen ++ eventAddedIds e) rest

/-- No id is excused. -/
def exNone : String → Bool := fun _ => false

/-- The empty id is excused. -/
def exEmpty : String → Bool := fun i => decide (i = "")

/-- The claim as stated: every referenced item id was introduced by an
earlier `output_item.added` of the same request. -/
def refsIntroduced (evs : List OrsEvent) : Bool :=
  refsCheckFrom exNone [] evs

/-- The amended property: every referenced *non-empty* item id was
introduced by an earlier `output_item.added` of the same request. -/
def refsIntroducedNE (evs : List OrsEvent) : Bool :=
  refsCheckFrom exEmpty [] evs

/-- The state-to-history invariant behind the item-reference property:
whatever id the transcoder currently holds is non-empty and has
already been introduced by an `output_item.added`. -/
def SeenInv (t : Transcoder) (seen : List String) : Prop :=
  ∀ id, t.current_item_id = some id → id ≠ "" ∧ id ∈ seen

/-! ## Concrete inputs used by counterexamples and witnesses -/

/-- A first chunk whose delta carries an empty content string and no
tool calls (`{"choices":[{"delta":{"content":""}}]}`). -/
def cChunkEmptyContent : LegacyChunk := ⟨[⟨⟨some "", none⟩, none⟩]⟩

/-- A chunk carrying the content delta `"hi"`. -/
def cChunkContentHi : LegacyChunk := ⟨[⟨⟨some "hi", none⟩, none⟩]⟩

/-- A chunk with an empty delta and `finish_reason: "stop"`. -/
def cChunkFinishStop : LegacyChunk := ⟨[⟨⟨none, none⟩, some "stop"⟩]⟩

/-- A chunk whose delta opens a tool call:
`tool_calls: [{id: "call_1", function: {name: "get_weather",
arguments: ""}}]`. -/
def cChunkToolOpen : LegacyChunk :=
  ⟨[⟨⟨none, some [⟨some "call_1", some "get_weather", some ""⟩]⟩, none⟩]⟩

/-- A concrete stand-in for `serde_json::from_str::<LegacyChunk>`: the
payload `"x"` parses to a content chunk, everything else fails. -/
def cParse : String → Option LegacyChunk :=
  fun s => if s = "x" then some cChunkContentHi else none

/-- A representative captured event stream: a message item with two
text deltas, then a function-call item with an arguments delta and a
(stray) text delta, interleaved with every other event kind. -/
def cEvents : List OrsEvent :=
  [.created "resp_r" (some 0),
   .itemAdded (some 0) (msgItem "msg_0"),
   .contentPartAdded (some 1) "msg_0" (some 0) (some 0) ⟨"output_text", ""⟩,
   .textDelta (some 2) "msg_0" (some 0) (some 0) "Hi",
   .textDelta (some 3) "msg_0" (some 0) (some 0) " there",
   .itemAdded (some 4) (fcItem "fc_1" "call_1" "f"),
   .functionCallArgumentsDelta (some 5) "fc_1" (some 0) "{}",
   .textDelta (some 6) "fc_1" (some 0) (some 0) "X",
   .contentPartDone (some 7) "msg_0" (some 0) (some 0) ⟨"output_text", ""⟩,
   .itemDone (some 8) (some 0) (doneItem "fc_1" "function_call" "completed")]

/-! # Theorems -/

/-- **C1** (code_bug).  The initialization path of
`Transcoder::process` reuses the sequence number of `response.created`
for the `output_item.added` it emits (`transcoder.rs` lines 46–69:
`seq` is drawn once and pushed with both events), so on the very first
chunk the emitted sequence numbers are `0, 0` — not the gap-free
strictly increasing `0, 1, 2, …` the claim (and the stated invariant
of the spec) requires. -/
theorem transcoder_first_chunk_repeats_seq_zero :
    seqNumbers (((Transcoder.new "r").process cChunkEmptyContent).2) =
      [some 0, some 0] ∧
    seqStrictFrom0 (((Transcoder.new "r").process cChunkEmptyContent).2) =
      false := by
  constructor <;> rfl

/-- **C2** (counterexample).  Feeding two finish-only chunks to one
transcoder refutes the claim as stated: the first chunk opens and
closes a message item; the second chunk finds no current item, so the
local `item_id` of `transcoder.rs` line 75 falls back to `""` and the
completion block emits `output_item.done` whose item id `""` was never
carried by any `output_item.added`. -/
theorem itemDone_empty_id_without_added :
    refsIntroduced
      ((processAll (Transcoder.new "r")
        [cChunkFinishStop, cChunkFinishStop]).2) = false := by
  rfl

/-- **C3** (code_bug).  A content chunk opens a message content part;
the next chunk opens a function-call item via a tool-call delta
carrying an id.  The tool-call branch of `Transcoder::process`
(`transcoder.rs` lines 125–145) emits `output_item.added` for the new
function-call item without emitting `content_part.done` for the open
part and without clearing the open flag: the run's events contain no
`content_part.done` at all, the `output_item.added` of type
`function_call` follows the un-closed `content_part.added`, and the
final state still has `has_emitted_content_start = true`. -/
theorem fc_item_added_leaves_content_part_open :
    ((processAll (Transcoder.new "r")
        [cChunkContentHi, cChunkToolOpen]).2 =
      [.created "resp_r" (some 0),
       .itemAdded (some 0) (msgItem "msg_0"),
       .contentPartAdded (some 1) "msg_0" (some 0) (some 0)
         ⟨"output_text", ""⟩,
       .textDelta (some 2) "msg_0" (some 0) (some 0) "hi",
       .itemAdded (some 3) (fcItem "fc_1" "call_1" "get_weather")]) ∧
    (processAll (Transcoder.new "r")
        [cChunkContentHi, cChunkToolOpen]).1.has_emitted_content_start =
      true := by
  constructor <;> rfl

/-- **C10** (confirmed).  A chunk whose `choices` list is empty makes
`Transcoder::process` return no events and leave the whole state —
response id, current item id and kind, content index, open-part flag,
lifecycle state, sequence counter (and token supply) — unchanged; in
particular a leading such chunk defers `response.created`, since the
state stays `Init`. -/
theorem process_empty_choices_noop (t : Transcoder) :
    t.process ⟨[]⟩ = (t, []) := by
  rfl

/-- Helper: a `data: [DONE]` line is dropped by `processLine` with no
event and no state change. -/
theorem processLine_done (parse : String → Option LegacyChunk)
    (t : Transcoder) : processLine parse t "data: [DONE]" = (t, []) := by
  rfl

/-- **C4** (counterexample).  The claim as stated predicts that no
line arriving after a `data: [DONE]` line is parsed or forwarded, so
the two-line sequence `["data: [DONE]", "data: x"]` should produce no
events.  The handler's loop (`main.rs` lines 181–183) merely
`continue`s past `[DONE]`, so the following line is parsed and
forwarded and events are emitted. -/
theorem line_after_done_still_forwarded :
    (processLines cParse (Transcoder.new "t")
      ["data: [DONE]", "data: x"]).2 ≠ [] := by
  decide

/-- **C4** (amended).  A line whose `data: ` payload equals `[DONE]`
is dropped — no event is emitted for it and the transcoder state is
untouched — but the stream is *not* terminated: processing continues
with the remaining lines exactly as if the `[DONE]` line were absent. -/
theorem done_line_dropped_stream_continues
    (parse : String → Option LegacyChunk) (t : Transcoder)
    (pre post : List String) :
    processLines parse t (pre ++ "data: [DONE]" :: post) =
      processLines parse t (pre ++ post) := by
  induction pre generalizing t with
  | nil =>
    simp [processLines, processLine_done]
  | cons l pre ih =>
    simp only [List.cons_append, processLines, List.append_eq]
    rw [ih]

/-- **C5** (counterexample).  On a connect/transport failure the
handler (`main.rs` lines 121–129) returns a 502 whose body is the
plain text `"Upstream error: <e>"` — not the JSON
`{error:{message, type, code}}` object the claim requires for every
upstream failure. -/
theorem transport_error_body_not_json :
    ¬ upstreamErrorBodyShape "boom"
        (handleUpstreamResult (.sendErr "boom")) := by
  rintro ⟨-, m, hm, -⟩
  exact ClientBody.noConfusion hm

/-- **C5** (amended).  A non-2xx upstream status yields status 502
with the JSON body `{error: {message: "Upstream provider error: " ++
text, type: "upstream_error", code: "upstream_failed"}}`, the message
containing the upstream text; a connect/transport failure yields
status 502 with the plain-text body `"Upstream error: <e>"`; in both
cases the handler returns before the streaming path, so nothing is
persisted for the request. -/
theorem upstream_failure_responses (status : Nat) (body e : String)
    (h : isSuccessStatus status = false) :
    handleUpstreamResult (.resp status body) =
      .early 502 true
        (.jsonError ("Upstream provider error: " ++ body)
          "upstream_error" "upstream_failed") ∧
    (∃ p q, "Upstream provider error: " ++ body = p ++ body ++ q) ∧
    handleUpstreamResult (.sendErr e) =
      .early 502 false (.text ("Upstream error: " ++ e)) := by
  refine ⟨?_, ⟨"Upstream provider error: ", "", by simp⟩, rfl⟩
  simp [handleUpstreamResult, h]

/-- **C5** (witness). -/
theorem upstream_failure_responses_witness :
    handleUpstreamResult (.resp 503 "overloaded") =
      .early 502 true
        (.jsonError ("Upstream provider error: " ++ "overloaded")
          "upstream_error" "upstream_failed") :=
  (upstream_failure_responses 503 "overloaded" "boom" (by decide)).1

/-- Helper: `String.join` unfolds one element at a time. -/
theorem strJoin_cons (t : String) (rest : List String) :
    String.join (t :: rest) = t ++ String.join rest := by
  cases t with
  | mk d =>
    simp only [String.join_eq, List.map_cons, List.flatten_cons]
    rfl

/-- Helper: the content-part loop on an all-text part list keeps
exactly the non-empty texts, and sees no image. -/
theorem buildParts_all_text (ts : List String) :
    buildParts (ts.map .inputText) =
      ((ts.filter (fun t => !t.isEmpty)).map LegacyContentPart.text,
       false) := by
  induction ts with
  | nil => rfl
  | cons t rest ih =>
    by_cases ht : t.isEmpty <;>
      simp [buildParts, ih, List.filter_cons, ht]

/-- Helper: dropping empty strings does not change the joined text. -/
theorem strJoin_filter_ne_empty (ts : List String) :
    String.join (ts.filter (fun t => !t.isEmpty)) = String.join ts := by
  induction ts with
  | nil => rfl
  | cons t rest ih =>
    by_cases ht : t.isEmpty
    · have h0 : t = "" := (String.isEmpty_iff t).mp ht
      subst h0
      have he : "".isEmpty = true := (String.isEmpty_iff "").mpr rfl
      simp [List.filter_cons, he, strJoin_cons, ih]
    · simp [List.filter_cons, ht, strJoin_cons, ih]

/-- Helper: `textsOf` recovers the texts of an all-text part list. -/
theorem textsOf_map_text (l : List String) :
    textsOf (l.map LegacyContentPart.text) = l := by
  induction l with
  | nil => rfl
  | cons t rest ih =>
    simp only [textsOf, List.map_cons, List.filterMap_cons] at ih ⊢
    rw [ih]

/-- **C8** (confirmed).  An ORS `Message` all of whose parts are
input-text translates to exactly one legacy message: the role is
mapped user→`user`, assistant→`assistant`, developer→`system`
(`legacyRoleOf`), the content is the single string joining the part
texts in order, and when that join is empty (no image part being
present) the content field is absent. -/
theorem all_text_message_translation (role : OrsRole)
    (texts : List String) :
    transform_ors_to_legacy
        [.message role (texts.map .inputText)] =
      [{ role := legacyRoleOf role,
         content :=
           if !(String.join texts).isEmpty then
             some (.str (String.join texts))
           else none,
         tool_calls := none, tool_call_id := none }] := by
  simp only [transform_ors_to_legacy, List.map_cons, List.map_nil,
    transformItem, buildParts_all_text]
  simp [textsOf_map_text, strJoin_filter_ne_empty]

/-- Helper: scanning a concatenation is scanning the pieces in
sequence, resuming from the intermediate `(acc, cur)` state. -/
theorem extractLinesGo_append (xs ys : List Nat) (acc : List (List Nat))
    (cur : List Nat) :
    extractLinesGo acc cur (xs ++ ys) =
      extractLinesGo (extractLinesGo acc cur xs).1
        (extractLinesGo acc cur xs).2 ys := by
  induction xs generalizing acc cur with
  | nil => rfl
  | cons b bs ih =>
    by_cases hb : b = 10 <;> simp [extractLinesGo, hb, ih]

/-- Helper: the line accumulator only collects; it factors out. -/
theorem extractLinesGo_acc (xs : List Nat) (a : List (List Nat))
    (cur : List Nat) :
    extractLinesGo a cur xs =
      (a ++ (extractLinesGo [] cur xs).1, (extractLinesGo [] cur xs).2) := by
  induction xs generalizing a cur with
  | nil => simp [extractLinesGo]
  | cons b bs ih =>
    by_cases hb : b = 10
    · subst hb
      simp only [extractLinesGo, if_pos]
      rw [ih (a ++ keepLine cur), ih ([] ++ keepLine cur)]
      simp [List.append_assoc]
    · simp only [extractLinesGo, if_neg hb]
      exact ih a (cur ++ [b])

/-- Helper: the retained tail never contains a line feed. -/
theorem extractLinesGo_no_lf (xs : List Nat) (acc : List (List Nat))
    (cur : List Nat) (h : 10 ∉ cur) :
    10 ∉ (extractLinesGo acc cur xs).2 := by
  induction xs generalizing acc cur with
  | nil => exact h
  | cons b bs ih =>
    by_cases hb : b = 10
    · subst hb
      simp only [extractLinesGo, if_pos]
      exact ih _ _ (List.not_mem_nil 10)
    · simp only [extractLinesGo, if_neg hb]
      refine ih _ _ ?_
      intro hm
      rcases List.mem_append.mp hm with hm | hm
      · exact h hm
      · simp at hm
        exact hb hm.symm

/-- Helper: a line-feed-free span moves from the input into the
current-line accumulator. -/
theorem extractLinesGo_resume : ∀ (t e : List Nat) (acc : List (List Nat))
    (cur : List Nat), 10 ∉ t →
    extractLinesGo acc cur (t ++ e) = extractLinesGo acc (cur ++ t) e
  | [], e, acc, cur, _ => by simp
  | b :: t', e, acc, cur, h => by
    have hb : b ≠ 10 := fun hb => h (by simp [hb])
    have ht' : 10 ∉ t' := fun hm => h (by simp [hm])
    simp only [List.cons_append, extractLinesGo, if_neg hb, List.append_eq]
    rw [extractLinesGo_resume t' e acc (cur ++ [b]) ht']
    simp

/-- Helper: extraction restarted on a line-feed-free retained tail
followed by new input continues the original scan. -/
theorem extractLines_resume (t e : List Nat) (h : 10 ∉ t) :
    extractLines (t ++ e) = extractLinesGo [] t e := by
  rw [extractLines, extractLinesGo_resume t e [] [] h]
  rfl

/-- Helper: a line-feed-free buffer yields no lines and is retained. -/
theorem extractLines_no_lf (t : List Nat) (h : 10 ∉ t) :
    extractLines t = ([], t) := by
  have h2 := extractLines_resume t [] h
  simp only [List.append_nil] at h2
  rw [h2]
  rfl

/-- Helper: extracting from `a ++ e` is extracting from `a`, then
from its retained tail prepended to `e`. -/
theorem extractLines_append_decomp (a e : List Nat) :
    extractLines (a ++ e) =
      ((extractLines a).1 ++
         (extractLines ((extractLines a).2 ++ e)).1,
       (extractLines ((extractLines a).2 ++ e)).2) := by
  have hT : 10 ∉ (extractLines a).2 :=
    extractLinesGo_no_lf a [] [] (List.not_mem_nil 10)
  show extractLinesGo [] [] (a ++ e) = _
  rw [extractLinesGo_append, extractLinesGo_acc]
  rw [show extractLinesGo ([] : List (List Nat)) ([] : List Nat) a =
    extractLines a from rfl]
  rw [← extractLines_resume ((extractLines a).2) e hT]

/-- Helper: sequential decoding from any codec whose retained buffer
is line-feed-free agrees with one decode of the joined input. -/
theorem decodeChunks_eq (chunks : List (List Nat)) (c : SseCodec)
    (hc : 10 ∉ c.buffer) :
    decodeChunks c chunks =
      (⟨(extractLines (c.buffer ++ chunks.flatten)).2⟩,
       (extractLines (c.buffer ++ chunks.flatten)).1) := by
  induction chunks generalizing c with
  | nil =>
    cases c with
    | mk buf =>
      simp only [decodeChunks, List.flatten_nil, List.append_nil,
        extractLines_no_lf buf hc]
  | cons ch rest ih =>
    have hT : 10 ∉ (extractLines (c.buffer ++ ch)).2 :=
      extractLinesGo_no_lf _ [] [] (List.not_mem_nil 10)
    have hdec : c.decode ch =
        (⟨(extractLines (c.buffer ++ ch)).2⟩,
         (extractLines (c.buffer ++ ch)).1) := rfl
    rw [List.flatten_cons,
      show c.buffer ++ (ch ++ rest.flatten) =
        (c.buffer ++ ch) ++ rest.flatten from
        (List.append_assoc _ _ _).symm,
      extractLines_append_decomp]
    simp only [decodeChunks, hdec]
    rw [ih ⟨(extractLines (c.buffer ++ ch)).2⟩ hT]

/-- **C6** (confirmed).  The frame codec is stream-equivalent: for
every byte sequence and every partition of it into chunks, the
concatenation of the line lists returned by sequential `decode` calls
on the chunks equals the line list returned by a single `decode` call
on the whole sequence, both runs starting from a fresh codec. -/
theorem codec_stream_equivalent (chunks : List (List Nat)) :
    (decodeChunks SseCodec.new chunks).2 =
      (SseCodec.new.decode chunks.flatten).2 := by
  rw [decodeChunks_eq chunks SseCodec.new (List.not_mem_nil 10)]
  rfl

/-- **C9** (confirmed).  A completed line whose bytes (after the
codec's CR strip, which is what `sse_codec.rs` line 29 hands to
`std::str::from_utf8`) are not valid UTF-8 is silently discarded:
`decode` — a total function, so no error is raised — returns no entry
for it, and the invalid bytes are consumed from the buffer and lost;
decoding is exactly as if the line and its line feed were absent. -/
theorem invalid_utf8_line_dropped (l rest : List Nat) (h10 : 10 ∉ l)
    (hinv : isValidUtf8 (stripCr l) = false) :
    SseCodec.new.decode (l ++ 10 :: rest) = SseCodec.new.decode rest := by
  have hk : keepLine l = [] := by
    simp [keepLine, hinv]
  have hx : extractLines (l ++ 10 :: rest) = extractLines rest := by
    rw [extractLines, extractLinesGo_resume l (10 :: rest) [] [] h10]
    simp only [List.nil_append]
    rw [show extractLinesGo [] l (10 :: rest) =
      extractLinesGo ([] ++ keepLine l) [] rest from by
        simp [extractLinesGo]]
    rw [hk]
    rfl
  show ((SseCodec.mk (extractLines (l ++ 10 :: rest)).2),
        (extractLines (l ++ 10 :: rest)).1) =
       ((SseCodec.mk (extractLines rest).2), (extractLines rest).1)
  rw [hx]

/-- **C9** (witness): the lone byte `0xFF` followed by a line feed is
dropped; the following line `h\n` is decoded either way. -/
theorem invalid_utf8_line_dropped_witness :
    SseCodec.new.decode ([255] ++ 10 :: [104, 10]) =
      SseCodec.new.decode [104, 10] :=
  invalid_utf8_line_dropped [255] [104, 10] (by decide) (by decide)

/-- Helper: no ids are introduced by an empty event list. -/
theorem addedIdsOf_nil : addedIdsOf [] = [] := rfl

/-- Helper: introduced ids of a cons. -/
theorem addedIdsOf_cons (e : OrsEvent) (evs : List OrsEvent) :
    addedIdsOf (e :: evs) = eventAddedIds e ++ addedIdsOf evs := by
  simp [addedIdsOf]

/-- Helper: introduced ids of a concatenation. -/
theorem addedIdsOf_append (a b : List OrsEvent) :
    addedIdsOf (a ++ b) = addedIdsOf a ++ addedIdsOf b := by
  simp [addedIdsOf]

/-- Helper: the reference check splits over concatenation, the second
part starting from the enlarged seen set. -/
theorem refsCheckFrom_append (ex : String → Bool) (seen : List String)
    (a b : List OrsEvent) :
    refsCheckFrom ex seen (a ++ b) =
      (refsCheckFrom ex seen a &&
        refsCheckFrom ex (seen ++ addedIdsOf a) b) := by
  induction a generalizing seen with
  | nil => simp [refsCheckFrom, addedIdsOf_nil]
  | cons e a' ih =>
    simp only [List.cons_append, refsCheckFrom, List.append_eq, ih,
      addedIdsOf_cons, List.append_assoc, Bool.and_assoc]

/-- Helper: a string with a non-empty prefix is non-empty. -/
theorem append_ne_empty_left (p s : String) (hp : p.length ≠ 0) :
    p ++ s ≠ "" := by
  intro h
  have h0 : (p ++ s).length = 0 := by rw [h]; rfl
  rw [String.length_append] at h0
  omega

/-- Helper: the initialization block emits only reference-free events
(`response.created`, `output_item.added`) and leaves the current item
id either untouched or pointing at the freshly introduced message
item. -/
theorem initPhase_ok (t : Transcoder) (choice : LegacyChoice)
    (seen : List String) (h : SeenInv t seen) :
    refsCheckFrom exEmpty seen (initPhase t choice).2 = true ∧
    SeenInv (initPhase t choice).1
      (seen ++ addedIdsOf (initPhase t choice).2) := by
  cases ht : t.state with
  | streaming =>
    simp only [initPhase, ht]
    exact ⟨rfl, by simpa [addedIdsOf] using h⟩
  | init =>
    by_cases hc : (!(choice.delta.tool_calls.map
        (fun tc => !tc.isEmpty)).getD false ||
        (choice.delta.content.map (fun s => !s.isEmpty)).getD false) = true
    · simp only [initPhase, ht, Transcoder.next_seq, Transcoder.freshTok,
        hc, if_pos]
      constructor
      · simp [refsCheckFrom, eventRefIds]
      · intro id heq
        simp only [Option.some.injEq] at heq
        subst heq
        refine ⟨append_ne_empty_left "msg_" _ (by decide), ?_⟩
        simp [addedIdsOf, eventAddedIds, msgItem]
    · simp only [initPhase, ht, Transcoder.next_seq, Transcoder.freshTok,
        hc, if_neg, Bool.not_eq_true]
      constructor
      · simp [refsCheckFrom, eventRefIds]
      · intro id heq
        simp only at heq
        have := h id heq
        simpa [addedIdsOf, eventAddedIds] using this
/-- Helper: the content block only references the captured `item_id`,
which it requires to be non-empty, and introduces no item. -/
theorem contentPhase_ok (t : Transcoder) (item_id : String)
    (choice : LegacyChoice) (seen : List String) (h : SeenInv t seen)
    (hiid : item_id ≠ "" → item_id ∈ seen) :
    refsCheckFrom exEmpty seen (contentPhase t item_id choice).2 = true ∧
    SeenInv (contentPhase t item_id choice).1
      (seen ++ addedIdsOf (contentPhase t item_id choice).2) := by
  cases hcon : choice.delta.content with
  | none =>
    simp only [contentPhase, hcon]
    exact ⟨rfl, by simpa [addedIdsOf] using h⟩
  | some content =>
    by_cases hce : content.isEmpty
    · simp only [contentPhase, hcon, hce, if_pos]
      exact ⟨rfl, by simpa [addedIdsOf] using h⟩
    · by_cases hie : item_id.isEmpty
      · simp only [contentPhase, hcon, hce, hie]
        simp only [Bool.false_eq_true, if_false, if_pos]
        exact ⟨rfl, by simpa [addedIdsOf] using h⟩
      · have hmem : item_id ∈ seen := by
          refine hiid fun he => ?_
          rw [he] at hie
          exact hie rfl
        by_cases hst : t.has_emitted_content_start
        · simp only [contentPhase, hcon, hce, hie, hst,
            Bool.false_eq_true, if_false, if_pos, Transcoder.next_seq]
          constructor
          · simp [refsCheckFrom, eventRefIds, hmem]
          · intro id heq
            simp only at heq
            have := h id heq
            simpa [addedIdsOf, eventAddedIds] using this
        · simp only [contentPhase, hcon, hce, hie, hst,
            Bool.false_eq_true, if_false, Transcoder.next_seq]
          constructor
          · simp [refsCheckFrom, eventRefIds, hmem]
          · intro id heq
            simp only at heq
            have := h id heq
            simpa [addedIdsOf, eventAddedIds] using this

/-- Helper: one tool-call entry either introduces a fresh function-call
item before referencing it, or references the already-introduced
current item. -/
theorem toolStep_ok (t : Transcoder) (tc : ToolCallDelta)
    (seen : List String) (h : SeenInv t seen) :
    refsCheckFrom exEmpty seen (toolStep t tc).2 = true ∧
    SeenInv (toolStep t tc).1 (seen ++ addedIdsOf (toolStep t tc).2) := by
  cases hid : tc.id with
  | some call_id =>
    cases harg : tc.arguments with
    | none =>
      simp only [toolStep, hid, harg, Transcoder.freshTok,
        Transcoder.next_seq]
      constructor
      · simp [refsCheckFrom, eventRefIds]
      · intro id heq
        simp only [Option.some.injEq] at heq
        subst heq
        refine ⟨append_ne_empty_left "fc_" _ (by decide), ?_⟩
        simp [addedIdsOf, eventAddedIds, fcItem]
    | some delta =>
      by_cases hde : delta.isEmpty
      · simp only [toolStep, hid, harg, hde, if_pos, Transcoder.freshTok,
          Transcoder.next_seq]
        constructor
        · simp [refsCheckFrom, eventRefIds]
        · intro id heq
          simp only [Option.some.injEq] at heq
          subst heq
          refine ⟨append_ne_empty_left "fc_" _ (by decide), ?_⟩
          simp [addedIdsOf, eventAddedIds, fcItem]
      · simp only [toolStep, hid, harg, hde, Bool.false_eq_true, if_false,
          Transcoder.freshTok, Transcoder.next_seq]
        constructor
        · simp [refsCheckFrom, eventRefIds, addedIdsOf, eventAddedIds,
            fcItem]
        · intro id heq
          simp only [Option.some.injEq] at heq
          subst heq
          refine ⟨append_ne_empty_left "fc_" _ (by decide), ?_⟩
          simp [addedIdsOf, eventAddedIds, fcItem]
  | none =>
    cases harg : tc.arguments with
    | none =>
      simp only [toolStep, hid, harg]
      exact ⟨rfl, by simpa [addedIdsOf] using h⟩
    | some delta =>
      by_cases hde : delta.isEmpty
      · simp only [toolStep, hid, harg, hde, if_pos]
        exact ⟨rfl, by simpa [addedIdsOf] using h⟩
      · cases hcur : t.current_item_id with
        | none =>
          simp only [toolStep, hid, harg, hde, Bool.false_eq_true,
            if_false, hcur]
          exact ⟨rfl, by simpa [addedIdsOf, hcur] using h⟩
        | some cid =>
          have hmem := h cid hcur
          simp only [toolStep, hid, harg, hde, Bool.false_eq_true,
            if_false, hcur, Transcoder.next_seq]
          constructor
          · simp [refsCheckFrom, eventRefIds, hmem.2]
          · intro id heq
            simp only [hcur, Option.some.injEq] at heq
            subst heq
            simpa [addedIdsOf, eventAddedIds] using hmem
/-- Helper: the tool loop preserves the invariant entry by entry. -/
theorem toolLoop_ok (tcs : List ToolCallDelta) :
    ∀ (t : Transcoder) (seen : List String), SeenInv t seen →
    refsCheckFrom exEmpty seen (toolLoop t tcs).2 = true ∧
    SeenInv (toolLoop t tcs).1 (seen ++ addedIdsOf (toolLoop t tcs).2) := by
  induction tcs with
  | nil =>
    intro t seen h
    exact ⟨rfl, by simpa [toolLoop, addedIdsOf] using h⟩
  | cons tc rest ih =>
    intro t seen h
    have h1 := toolStep_ok t tc seen h
    have h2 := ih (toolStep t tc).1 (seen ++ addedIdsOf (toolStep t tc).2)
      h1.2
    have hsplit : toolLoop t (tc :: rest) =
        ((toolLoop (toolStep t tc).1 rest).1,
         (toolStep t tc).2 ++ (toolLoop (toolStep t tc).1 rest).2) := rfl
    rw [hsplit]
    constructor
    · rw [refsCheckFrom_append]
      simp only [Bool.and_eq_true]
      exact ⟨h1.1, h2.1⟩
    · rw [addedIdsOf_append, ← List.append_assoc]
      exact h2.2

/-- Helper: the tool-calls block preserves the invariant. -/
theorem toolPhase_ok (t : Transcoder) (choice : LegacyChoice)
    (seen : List String) (h : SeenInv t seen) :
    refsCheckFrom exEmpty seen (toolPhase t choice).2 = true ∧
    SeenInv (toolPhase t choice).1
      (seen ++ addedIdsOf (toolPhase t choice).2) := by
  cases htc : choice.delta.tool_calls with
  | none =>
    simp only [toolPhase, htc]
    exact ⟨rfl, by simpa [addedIdsOf] using h⟩
  | some tcs =>
    simp only [toolPhase, htc]
    exact toolLoop_ok tcs t seen h

/-- Helper: the completion block references only the captured
`item_id` (excused when empty) and clears the current item. -/
theorem finishPhase_ok (t : Transcoder) (item_id : String)
    (choice : LegacyChoice) (seen : List String) (h : SeenInv t seen)
    (hiid : item_id ≠ "" → item_id ∈ seen) :
    refsCheckFrom exEmpty seen (finishPhase t item_id choice).2 = true ∧
    SeenInv (finishPhase t item_id choice).1
      (seen ++ addedIdsOf (finishPhase t item_id choice).2) := by
  have hok : (exEmpty item_id || decide (item_id ∈ seen)) = true := by
    by_cases he : item_id = ""
    · simp [exEmpty, he]
    · simp [exEmpty, hiid he]
  cases hfr : choice.finish_reason with
  | none =>
    simp only [finishPhase, hfr]
    exact ⟨rfl, by simpa [addedIdsOf] using h⟩
  | some fr =>
    by_cases hst : t.has_emitted_content_start
    · simp only [finishPhase, hfr, hst, if_pos, Transcoder.next_seq]
      constructor
      · simp only [refsCheckFrom, eventRefIds, eventAddedIds, doneItem,
          List.all_cons, List.all_nil, List.append_nil, Bool.and_true,
          hok, Bool.true_and]
      · intro id heq
        simp at heq
    · simp only [finishPhase, hfr, hst, Bool.false_eq_true, if_false,
        Transcoder.next_seq]
      constructor
      · simp only [refsCheckFrom, eventRefIds, doneItem, List.all_cons,
          List.all_nil, Bool.and_true, hok, Bool.true_and]
      · intro id heq
        simp at heq
/-- Helper: one `process` call emits only events whose non-empty item
references were introduced earlier, and preserves the state
invariant. -/
theorem process_ok (t : Transcoder) (chunk : LegacyChunk)
    (seen : List String) (h : SeenInv t seen) :
    refsCheckFrom exEmpty seen (t.process chunk).2 = true ∧
    SeenInv (t.process chunk).1
      (seen ++ addedIdsOf (t.process chunk).2) := by
  cases hc : chunk.choices.head? with
  | none =>
    have hp : t.process chunk = (t, []) := by
      simp only [Transcoder.process, hc]
    rw [hp]
    exact ⟨rfl, by simpa [addedIdsOf] using h⟩
  | some choice =>
    rcases hT1 : initPhase t choice with ⟨t1, e1⟩
    rcases hT2 : contentPhase t1 (t1.current_item_id.getD "") choice
      with ⟨t2, e2⟩
    rcases hT3 : toolPhase t2 choice with ⟨t3, e3⟩
    rcases hT4 : finishPhase t3 (t1.current_item_id.getD "") choice
      with ⟨t4, e4⟩
    have hp : t.process chunk = (t4, e1 ++ e2 ++ e3 ++ e4) := by
      simp only [Transcoder.process, hc, hT1, hT2, hT3, hT4]
    have H1 := initPhase_ok t choice seen h
    rw [hT1] at H1
    have hiid : (t1.current_item_id.getD "") ≠ "" →
        (t1.current_item_id.getD "") ∈ seen ++ addedIdsOf e1 := by
      cases hcur : t1.current_item_id with
      | none => intro hne; simp [hcur] at hne
      | some i =>
        intro _
        simpa [hcur] using (H1.2 i hcur).2
    have H2 := contentPhase_ok t1 (t1.current_item_id.getD "") choice
      (seen ++ addedIdsOf e1) H1.2 hiid
    rw [hT2] at H2
    have H3 := toolPhase_ok t2 choice
      (seen ++ addedIdsOf e1 ++ addedIdsOf e2) H2.2
    rw [hT3] at H3
    have hiid3 : (t1.current_item_id.getD "") ≠ "" →
        (t1.current_item_id.getD "") ∈
          seen ++ addedIdsOf e1 ++ addedIdsOf e2 ++ addedIdsOf e3 :=
      fun hne =>
        List.mem_append.mpr (Or.inl (List.mem_append.mpr (Or.inl
          (hiid hne))))
    have H4 := finishPhase_ok t3 (t1.current_item_id.getD "") choice
      (seen ++ addedIdsOf e1 ++ addedIdsOf e2 ++ addedIdsOf e3) H3.2 hiid3
    rw [hT4] at H4
    rw [hp]
    constructor
    · show refsCheckFrom exEmpty seen (e1 ++ e2 ++ e3 ++ e4) = true
      simp only [refsCheckFrom_append, addedIdsOf_append, Bool.and_eq_true]
      exact ⟨⟨⟨H1.1, H2.1⟩, by simpa using H3.1⟩, by simpa using H4.1⟩
    · show SeenInv t4 (seen ++ addedIdsOf (e1 ++ e2 ++ e3 ++ e4))
      simp only [addedIdsOf_append, ← List.append_assoc]
      simpa using H4.2

/-- Helper: `process_ok` extended over a whole chunk sequence. -/
theorem processAll_ok (chunks : List LegacyChunk) :
    ∀ (t : Transcoder) (seen : List String), SeenInv t seen →
    refsCheckFrom exEmpty seen (processAll t chunks).2 = true ∧
    SeenInv (processAll t chunks).1
      (seen ++ addedIdsOf (processAll t chunks).2) := by
  induction chunks with
  | nil =>
    intro t seen h
    exact ⟨rfl, by simpa [processAll, addedIdsOf] using h⟩
  | cons c rest ih =>
    intro t seen h
    have h1 := process_ok t c seen h
    have h2 := ih (t.process c).1 (seen ++ addedIdsOf (t.process c).2) h1.2
    have hsplit : processAll t (c :: rest) =
        ((processAll (t.process c).1 rest).1,
         (t.process c).2 ++ (processAll (t.process c).1 rest).2) := rfl
    rw [hsplit]
    constructor
    · rw [refsCheckFrom_append]
      simp only [Bool.and_eq_true]
      exact ⟨h1.1, h2.1⟩
    · rw [addedIdsOf_append, ← List.append_assoc]
      exact h2.2

/-- **C2** (amended, confirmed).  Over any sequence of chunks fed to
one fresh transcoder, every emitted event that references a
*non-empty* item id (`content_part.added`, `output_text.delta`,
`function_call_arguments.delta`, `content_part.done`,
`output_item.done`) is preceded, in the request's emission order, by
an `output_item.added` whose item carries that id.  (The empty-id
exemption is forced by the counterexample: `output_item.done` can
carry the empty fallback id when no item is open.) -/
theorem nonempty_item_refs_have_prior_added (tok : String)
    (chunks : List LegacyChunk) :
    refsIntroducedNE ((processAll (Transcoder.new tok) chunks).2) = true :=
  (processAll_ok chunks (Transcoder.new tok) []
    (fun id hid => by simp [Transcoder.new] at hid)).1

/-- **C7** (code_bug).  The reconstruction loop of
`Db::save_interaction` (`db.rs` lines 134–148) does not compile:
`OrsEvent::ItemAdded { item_id, item }` names a field the variant does
not have (`types.rs` gives it `sequence_number` and `item`), and the
`TextDelta` pattern omits its remaining fields without `..`.  The
theorem exercises the model of the evident intent
(`save_interaction_rows`) on a representative stream: each
`output_item.added` registers its item's id with its kind and empty
text in first-seen order, each `output_text.delta` appends to the
matching entry, every other kind is ignored, and after the input rows
one synthesized assistant `Message` with a single input-text part is
stored per registered item, at consecutive sequence indices. -/
theorem save_interaction_reconstruction_example :
    save_interaction_rows 3
      [.message .user [.inputText "Hello"],
       .functionCallOutput "i" "c" "out"]
      cEvents =
      [⟨3, "input", .message .user [.inputText "Hello"]⟩,
       ⟨4, "input", .functionCallOutput "i" "c" "out"⟩,
       ⟨5, "message", .message .assistant [.inputText "Hi there"]⟩,
       ⟨6, "function_call", .message .assistant [.inputText "X"]⟩] := by
  rfl

end OrsProxy
